import Mathlib

/-!
Shallow embedding of `src/app.py` (studybudy): the file-upload / session-state
lifecycle manager of a Streamlit chat app backed by a remote multimodal
generation service.

The remote service and the filesystem are modelled as oracles:
* each uploaded file carries a `FileFate` saying what happens when it is
  staged, uploaded and polled (including the exact point at which an
  exception may be raised);
* the disk is a list of paths; creating a temp file appends its path,
  `os.remove` filters it out;
* the generation call is a function `List ContentPart → GenResult` supplied
  by the environment.

The embedded functions mirror `upload_and_process_files` (app.py:29-83),
the registration block (app.py:113-129) and the chat handler
(app.py:154-205) line by line.
-/

namespace StudyBudy

/-- Remote file state, as compared by name in the source
(`file_to_upload.state.name`): `"PROCESSING"`, `"ACTIVE"`, `"FAILED"`,
or any other (unexpected) name. -/
inductive GState where
  | PROCESSING
  | ACTIVE
  | FAILED
  | other (name : String)
deriving DecidableEq, Repr

/-- The string the source reads as `state.name`. -/
def stateName : GState → String
  | .PROCESSING => "PROCESSING"
  | .ACTIVE => "ACTIVE"
  | .FAILED => "FAILED"
  | .other n => n

/-- A Gemini `File` object as far as the app uses it: remote id
(`file.name`), display name, and last fetched state. -/
structure Handle where
  remoteId : String
  displayName : String
  state : GState
deriving DecidableEq, Repr

/-- The polling loop of app.py:54-57.  `states` is the sequence of states
the remote reports: element 0 is the state on the initial
`genai.upload_file` return, element `i+1` the state fetched by
`genai.get_file` after the `i`-th `time.sleep(2)`.  The loop keeps
re-fetching while the state is `PROCESSING`, so it returns the first
non-`PROCESSING` state together with the number of sleeps performed; if
the sequence never leaves `PROCESSING` the loop does not terminate
(`none`). -/
def pollFirst : List GState → Option (GState × Nat)
  | [] => none
  | s :: rest =>
    if s = GState.PROCESSING then
      (pollFirst rest).map (fun p => (p.1, p.2 + 1))
    else
      some (s, 0)

/-- Wall-clock time spent sleeping in the poll loop: each iteration sleeps
a fixed 2 time-units (`time.sleep(2)`). -/
def pollElapsed (states : List GState) : Option Nat :=
  (pollFirst states).map (fun p => 2 * p.2)

/-- `st.error` message of app.py:60. -/
def uploadFailedMsg (name : String) : String :=
  "Upload failed for " ++ name ++ ". Please try again."

/-- `st.warning` message of app.py:67. -/
def unexpectedStateMsg (name st : String) : String :=
  "File " ++ name ++ " in unexpected state: " ++ st

/-- `st.error` message of app.py:71. -/
def processingErrMsg (e : String) : String :=
  "An error occurred during file processing: " ++ e

/-- Environment oracle for one file of an upload batch: what staging,
uploading and polling it does.

* `stageCreateExn`: `tempfile.NamedTemporaryFile` itself raises — no file
  is created on disk.
* `stageWriteExn`: the temp file is created at `path` (with
  `delete=False`), but `uploaded_file.getvalue()` / `tmp_file.write`
  raises before `path` is appended to `temp_file_paths` (app.py:42-45).
* `remoteExn`: staging completes (`path` created and recorded) and then
  `genai.upload_file` or a `genai.get_file` poll raises.
* `polled`: staging completes and polling the remote yields the state
  sequence `states` for a handle with remote id `remoteId`. -/
inductive FileFate where
  | stageCreateExn (msg : String)
  | stageWriteExn (path : String) (msg : String)
  | remoteExn (path : String) (msg : String)
  | polled (path : String) (remoteId : String) (states : List GState)
deriving DecidableEq, Repr

/-- An entry of `uploaded_file_list`: the original filename plus its fate. -/
structure FileSpec where
  name : String
  fate : FileFate
deriving DecidableEq, Repr

/-- The terminal state the poll loop settles on for a file, when the file
is polled at all and the loop terminates. -/
def fateTerminal : FileFate → Option GState
  | .polled _ _ states => (pollFirst states).map (fun p => p.1)
  | _ => none

/-- Whether processing this file raises an exception (caught by the
`except` around the whole loop, app.py:70-73). -/
def isExnFate : FileFate → Bool
  | .polled _ _ _ => false
  | _ => true

/-- The `File` object appended to `processed_files` for a file that
reaches `ACTIVE` (app.py:65). -/
def producedHandle (f : FileSpec) : Option Handle :=
  match f.fate with
  | .polled _ rid _ => some ⟨rid, f.name, GState.ACTIVE⟩
  | _ => none

/-- Mutable state of the loop body of `upload_and_process_files`:
the disk, the locals `temp_file_paths`, `processed_files`, `all_success`,
the `st.error` / `st.warning` messages emitted, and the files whose
processing began (were staged), in order. -/
structure BatchState where
  disk : List String
  tempPaths : List String
  processed : List Handle
  allSuccess : Bool
  errors : List String
  warnings : List String
  attempted : List String
deriving DecidableEq, Repr

/-- One iteration of the `for uploaded_file in uploaded_file_list` loop
(app.py:40-68).  Returns the new state and whether an exception was
raised (which aborts the loop into the `except` clause); `none` means the
poll loop never terminated. -/
def processFile (b : BatchState) (f : FileSpec) : Option (BatchState × Bool) :=
  match f.fate with
  | .stageCreateExn e =>
    some ({ b with
            allSuccess := false,
            errors := b.errors ++ [processingErrMsg e],
            attempted := b.attempted ++ [f.name] }, true)
  | .stageWriteExn path e =>
    some ({ b with
            disk := b.disk ++ [path],
            allSuccess := false,
            errors := b.errors ++ [processingErrMsg e],
            attempted := b.attempted ++ [f.name] }, true)
  | .remoteExn path e =>
    some ({ b with
            disk := b.disk ++ [path],
            tempPaths := b.tempPaths ++ [path],
            allSuccess := false,
            errors := b.errors ++ [processingErrMsg e],
            attempted := b.attempted ++ [f.name] }, true)
  | .polled path rid states =>
    let b1 : BatchState :=
      { b with
        disk := b.disk ++ [path],
        tempPaths := b.tempPaths ++ [path],
        attempted := b.attempted ++ [f.name] }
    match pollFirst states with
    | none => none
    | some (st, _) =>
      if st = GState.FAILED then
        some ({ b1 with
                allSuccess := false,
                errors := b1.errors ++ [uploadFailedMsg f.name] }, false)
      else if st = GState.ACTIVE then
        some ({ b1 with processed := b1.processed ++ [⟨rid, f.name, GState.ACTIVE⟩] }, false)
      else
        some ({ b1 with
                allSuccess := false,
                warnings := b1.warnings ++ [unexpectedStateMsg f.name (stateName st)] }, false)

/-- The whole `for` loop plus the `except` clause: files are processed
strictly sequentially; an exception stops the loop (the remaining files
are never touched). -/
def runBatch (b : BatchState) : List FileSpec → Option BatchState
  | [] => some b
  | f :: rest =>
    match processFile b f with
    | none => none
    | some (b1, true) => some b1
    | some (b1, false) => runBatch b1 rest

/-- `os.remove path` on the modelled disk. -/
def removePath (disk : List String) (p : String) : List String :=
  disk.filter (fun q => q ≠ p)

/-- The `finally` clause (app.py:74-82): for each recorded temp path, if
it exists, remove it. -/
def cleanup (disk : List String) : List String → List String
  | [] => disk
  | p :: rest => cleanup (removePath disk p) rest

/-- Return value of `upload_and_process_files` plus the observable side
effects of the call: the triple `(processed_files, temp_file_paths,
all_success)`, the messages shown, the files whose processing began, and
the disk after the `finally` cleanup. -/
structure UploadResult where
  processed : List Handle
  tempPaths : List String
  allSuccess : Bool
  errors : List String
  warnings : List String
  attempted : List String
  disk : List String
deriving DecidableEq, Repr

/-- `upload_and_process_files(uploaded_file_list)` (app.py:29-83), run on
a disk `disk0`.  `none` models a poll loop that never terminates. -/
def upload_and_process_files (disk0 : List String) (files : List FileSpec) :
    Option UploadResult :=
  if files = [] then
    some ⟨[], [], true, [], [], [], disk0⟩
  else
    match runBatch ⟨disk0, [], [], true, [], [], []⟩ files with
    | none => none
    | some b =>
      some ⟨b.processed, b.tempPaths, b.allSuccess, b.errors, b.warnings, b.attempted,
            cleanup b.disk b.tempPaths⟩

/-- `st.session_state.gemini_files`: a Python dict from original filename
to Gemini `File` object, kept in insertion order. -/
abbrev Registry := List (String × Handle)

/-- The dict's keys. -/
def registryNames (reg : Registry) : List String :=
  reg.map (fun p => p.1)

/-- `allHandles()`: the dict's values, in insertion order
(`st.session_state.gemini_files.values()`). -/
def allHandles (reg : Registry) : List Handle :=
  reg.map (fun p => p.2)

/-- `name in st.session_state.gemini_files`. -/
def registryContains (reg : Registry) (name : String) : Bool :=
  (registryNames reg).contains name

/-- Dict lookup. -/
def registryLookup (reg : Registry) (name : String) : Option Handle :=
  match reg.find? (fun p => p.1 == name) with
  | some p => some p.2
  | none => none

/-- Python dict assignment `d[k] = v`: overwrite in place if the key
exists (keeping its insertion position), else append. -/
def assign (reg : Registry) (k : String) (v : Handle) : Registry :=
  if registryContains reg k then
    reg.map (fun p => if p.1 = k then (k, v) else p)
  else
    reg ++ [(k, v)]

/-- The registration loop of app.py:123-124. -/
def registerAll (reg : Registry) : List (String × Handle) → Registry
  | [] => reg
  | (k, v) :: rest => registerAll (assign reg k v) rest

/-- app.py:116: filter out files whose name is already in the session
registry. -/
def files_to_process (reg : Registry) (uploaded : List FileSpec) : List FileSpec :=
  uploaded.filter (fun f => ! registryContains reg f.name)

/-- Observable outcome of the "Process Newly Uploaded Files" block:
the registry and `st.session_state.temp_paths` afterwards, the disk,
whether `upload_and_process_files` was invoked, and (if so) its result. -/
structure StepResult where
  registry : Registry
  sessionTempPaths : List String
  disk : List String
  uploadCalled : Bool
  batch : Option UploadResult
deriving DecidableEq, Repr

/-- The "Process Newly Uploaded Files" block (app.py:113-129): filter the
selection against the registry; if anything is left, upload and process
it; on full success register each original filename to the handle at the
same position of `processed_files` (`zip`). -/
def processNewUploads (reg : Registry) (sessionTemp : List String)
    (disk0 : List String) (uploaded : List FileSpec) : Option StepResult :=
  if uploaded = [] then
    some ⟨reg, sessionTemp, disk0, false, none⟩
  else
    match files_to_process reg uploaded with
    | [] => some ⟨reg, sessionTemp, disk0, false, none⟩
    | f :: fs =>
      match upload_and_process_files disk0 (f :: fs) with
      | none => none
      | some r =>
        let st1 := sessionTemp ++ r.tempPaths
        if r.allSuccess then
          some ⟨registerAll reg (((f :: fs).map (fun g => g.name)).zip r.processed),
                st1, r.disk, true, some r⟩
        else
          some ⟨reg, st1, r.disk, true, some r⟩

/-- An element of the content list handed to `model.generate_content`:
a Gemini `File` object or the prompt text. -/
inductive ContentPart where
  | file (h : Handle)
  | text (s : String)
deriving DecidableEq, Repr

/-- Oracle for one `model.generate_content` call: a response carrying its
`parts` and its `text`, or a raised exception. -/
inductive GenResult where
  | ok (parts : List String) (text : String)
  | exn (msg : String)
deriving DecidableEq, Repr

/-- The fixed fallback notice of app.py:192. -/
def fallbackText : String :=
  "⚠️ Model did not provide a response. This might be due to safety settings or lack of relevant content in the images."

/-- `st.warning` of app.py:177. -/
def uploadFirstWarning : String :=
  "Please upload images before asking questions."

/-- One entry of `st.session_state.messages`: role and content parts
(the app stores text-only content, app.py:166 and 199). -/
structure Message where
  role : String
  content : List String
deriving DecidableEq, Repr

/-- app.py:180: all currently registered Gemini file objects, in dict
order, followed by the prompt. -/
def gemini_content_list (reg : Registry) (prompt : String) : List ContentPart :=
  (allHandles reg).map ContentPart.file ++ [ContentPart.text prompt]

/-- Observable outcome of one chat submission: the conversation store
afterwards, the content list actually sent to the remote call (`none` if
the call was never made), the text rendered in the assistant placeholder,
the `st.error` / `st.warning` messages, and whether the handler halted
(`st.stop`). -/
structure ChatResult where
  messages : List Message
  sent : Option (List ContentPart)
  shown : Option String
  errors : List String
  warnings : List String
  halted : Bool
deriving DecidableEq, Repr

/-- The chat-input handler (app.py:154-205) for a submitted `prompt`:
append the user turn; if no files are registered, warn and halt; else
send all registered handles plus the prompt to `gen`; an empty-parts
response yields the fixed fallback text; an exception is caught, shown as
an error and recorded as an assistant turn. -/
def handleChat (reg : Registry) (msgs : List Message) (prompt : String)
    (gen : List ContentPart → GenResult) : ChatResult :=
  let msgs1 := msgs ++ [⟨"user", [prompt]⟩]
  if reg = [] then
    ⟨msgs1, none, none, [], [uploadFirstWarning], true⟩
  else
    let content := gemini_content_list reg prompt
    match gen content with
    | .ok parts text =>
      let response_text := if parts = [] then fallbackText else text
      ⟨msgs1 ++ [⟨"assistant", [response_text]⟩], some content, some response_text,
       [], [], false⟩
    | .exn e =>
      ⟨msgs1 ++ [⟨"assistant", ["Error generating response: " ++ e]⟩], some content,
       none, ["An error occurred: " ++ e], [], false⟩

/-- Upload batch of the C1 witness: the first file ends `FAILED` after
one poll, the second is immediately `ACTIVE`. -/
def c1uploads : List FileSpec :=
  [⟨"a.png", FileFate.polled "/t/a" "files/ra" [GState.PROCESSING, GState.FAILED]⟩,
   ⟨"b.png", FileFate.polled "/t/b" "files/rb" [GState.ACTIVE]⟩]

/-- Outcome of the C1 witness run: no registration (batch unsuccessful),
error reported for the failed file. -/
def c1out : StepResult :=
  ⟨[], ["/t/a", "/t/b"], [], true,
   some ⟨[⟨"files/rb", "b.png", GState.ACTIVE⟩], ["/t/a", "/t/b"], false,
         [uploadFailedMsg "a.png"], [], ["a.png", "b.png"], []⟩⟩

/-- Handle already registered for `a.png` in the C2 witness. -/
def c2handle : Handle := ⟨"files/r0", "a.png", GState.ACTIVE⟩

/-- Registry of the C2 witness, already containing `a.png`. -/
def c2reg : Registry := [("a.png", c2handle)]

/-- Re-submission of `a.png` in the C2 witness. -/
def c2uploads : List FileSpec :=
  [⟨"a.png", FileFate.polled "/t/a2" "files/r1" [GState.ACTIVE]⟩]

/-- Outcome of the C2 witness run: nothing uploaded, registry unchanged. -/
def c2out : StepResult := ⟨c2reg, [], [], false, none⟩

/-- Upload batch of the C3 witness: both files reach `ACTIVE`. -/
def c3uploads : List FileSpec :=
  [⟨"a.png", FileFate.polled "/t/a" "files/ra" [GState.ACTIVE]⟩,
   ⟨"b.png", FileFate.polled "/t/b" "files/rb" [GState.PROCESSING, GState.ACTIVE]⟩]

/-- Batch result of the C3 witness run. -/
def c3r : UploadResult :=
  ⟨[⟨"files/ra", "a.png", GState.ACTIVE⟩, ⟨"files/rb", "b.png", GState.ACTIVE⟩],
   ["/t/a", "/t/b"], true, [], [], ["a.png", "b.png"], []⟩

/-- Outcome of the C3 witness run: both files registered, in order. -/
def c3out : StepResult :=
  ⟨[("a.png", ⟨"files/ra", "a.png", GState.ACTIVE⟩),
    ("b.png", ⟨"files/rb", "b.png", GState.ACTIVE⟩)],
   ["/t/a", "/t/b"], [], true, some c3r⟩

/-- C4 counterexample file: `tempfile.NamedTemporaryFile` creates
`/tmp/stage0` and the subsequent write raises, so the path is never
appended to `temp_file_paths`. -/
def c4file : FileSpec := ⟨"a.png", FileFate.stageWriteExn "/tmp/stage0" "disk full"⟩

/-- Observable result of the C4 counterexample run: the orphaned staging
path survives the `finally` cleanup. -/
def c4result : UploadResult :=
  ⟨[], [], false, [processingErrMsg "disk full"], [], ["a.png"], ["/tmp/stage0"]⟩

/-- File of the C4 witness: staging and upload succeed. -/
def c4wfile : FileSpec := ⟨"a.png", FileFate.polled "/t/w" "files/rw" [GState.ACTIVE]⟩

/-- Result of the C4 witness run. -/
def c4wresult : UploadResult :=
  ⟨[⟨"files/rw", "a.png", GState.ACTIVE⟩], ["/t/w"], true, [], [], ["a.png"], []⟩

/-- C9 counterexample, first file: polled straight to `FAILED`. -/
def c9fileA : FileSpec :=
  ⟨"a.png", FileFate.polled "/tmp/p1" "files/r1" [GState.FAILED]⟩

/-- C9 counterexample, second file: polled straight to `ACTIVE`. -/
def c9fileB : FileSpec :=
  ⟨"b.png", FileFate.polled "/tmp/p2" "files/r2" [GState.ACTIVE]⟩

/-- Result of the C9 counterexample run: the second file was still
staged, uploaded and polled after the first one failed. -/
def c9result : UploadResult :=
  ⟨[⟨"files/r2", "b.png", GState.ACTIVE⟩], ["/tmp/p1", "/tmp/p2"], false,
   [uploadFailedMsg "a.png"], [], ["a.png", "b.png"], []⟩

/-- Batch of the C9 witness: the first file raises during upload, the
second would be fine but is never reached. -/
def c9wfiles : List FileSpec :=
  [⟨"a.png", FileFate.remoteExn "/t/x" "network down"⟩,
   ⟨"b.png", FileFate.polled "/t/y" "files/ry" [GState.ACTIVE]⟩]

/-- Result of the C9 witness run: only the first file was attempted. -/
def c9wresult : UploadResult :=
  ⟨[], ["/t/x"], false, [processingErrMsg "network down"], [], ["a.png"], []⟩

/-- Registry used by the C5 witness: two `ACTIVE` handles A and B. -/
def c5hA : Handle := ⟨"files/a", "A", GState.ACTIVE⟩

/-- Second handle of the C5 witness registry. -/
def c5hB : Handle := ⟨"files/b", "B", GState.ACTIVE⟩

/-- The witness registry `{A: Active, B: Active}` of the spec's example. -/
def c5reg : Registry := [("A", c5hA), ("B", c5hB)]

/-! ## Theorems -/

theorem pollFirst_first_non_processing :
    ∀ (states : List GState) (k : Nat) (s : GState),
      states[k]? = some s → s ≠ GState.PROCESSING →
      (∀ j, j < k → states[j]? = some GState.PROCESSING) →
      pollFirst states = some (s, k)
  | [], k, s, hk, _, _ => by simp at hk
  | s0 :: rest, 0, s, hk, hs, _ => by
      simp at hk
      subst hk
      simp [pollFirst, hs]
  | s0 :: rest, k + 1, s, hk, hs, hbefore => by
      have h0 : s0 = GState.PROCESSING := by
        have := hbefore 0 (Nat.succ_pos k)
        simpa using this
      have hk' : rest[k]? = some s := by simpa using hk
      have hbefore' : ∀ j, j < k → rest[j]? = some GState.PROCESSING := by
        intro j hj
        have := hbefore (j + 1) (Nat.succ_lt_succ hj)
        simpa using this
      have ih := pollFirst_first_non_processing rest k s hk' hs hbefore'
      simp [pollFirst, h0, ih]

theorem pollFirst_replicate (n : Nat) :
    pollFirst (List.replicate n GState.PROCESSING ++ [GState.ACTIVE])
      = some (GState.ACTIVE, n) := by
  induction n with
  | zero => simp [pollFirst]
  | succ m ih => simp [List.replicate_succ, pollFirst, ih]

theorem pollFirst_isSome :
    ∀ (states : List GState),
      (∃ (j : Nat) (s : GState), states[j]? = some s ∧ s ≠ GState.PROCESSING) →
      (pollFirst states).isSome = true
  | [], h => by
      obtain ⟨j, s, hj, _⟩ := h
      simp at hj
  | s0 :: rest, h => by
      by_cases h0 : s0 = GState.PROCESSING
      · subst h0
        obtain ⟨j, s, hj, hs⟩ := h
        match j, hj with
        | 0, hj => simp at hj; exact absurd hj.symm hs
        | j + 1, hj =>
          have : (pollFirst rest).isSome = true :=
            pollFirst_isSome rest ⟨j, s, by simpa using hj, hs⟩
          simp [pollFirst, this]
      · simp [pollFirst, h0]

/-- Claim C10: the upload tracker polls the remote state at a fixed
2-time-unit interval while the state is `PROCESSING` and returns at the
first polled state that leaves `PROCESSING` (after `k` sleeps when the
first `k` polls are `PROCESSING`, having slept `2 * k` time-units); the
loop terminates for every polled sequence that eventually yields a
non-`PROCESSING` state; and no timeout or retry bound exists: for every
`n` there is a sequence on which the loop performs exactly `n` sleeps. -/
theorem C10_poll_loop (states : List GState) (k : Nat) (s : GState)
    (hk : states[k]? = some s) (hs : s ≠ GState.PROCESSING)
    (hbefore : ∀ j, j < k → states[j]? = some GState.PROCESSING) :
    (pollFirst states = some (s, k) ∧ pollElapsed states = some (2 * k)) ∧
    (∀ states' : List GState,
      (∃ (j : Nat) (s' : GState), states'[j]? = some s' ∧ s' ≠ GState.PROCESSING) →
      (pollFirst states').isSome = true) ∧
    (∀ n : Nat,
      pollFirst (List.replicate n GState.PROCESSING ++ [GState.ACTIVE])
        = some (GState.ACTIVE, n)) := by
  have h1 := pollFirst_first_non_processing states k s hk hs hbefore
  refine ⟨⟨h1, ?_⟩, fun st hst => pollFirst_isSome st hst, pollFirst_replicate⟩
  simp [pollElapsed, h1]

/-- Witness for C10 on the spec's example sequence
`[Processing, Processing, Active]`: the loop returns `ACTIVE` after two
sleeps, 4 time-units. -/
theorem C10_poll_loop_witness :
    pollFirst [GState.PROCESSING, GState.PROCESSING, GState.ACTIVE]
        = some (GState.ACTIVE, 2) ∧
    pollElapsed [GState.PROCESSING, GState.PROCESSING, GState.ACTIVE] = some 4 :=
  (C10_poll_loop [GState.PROCESSING, GState.PROCESSING, GState.ACTIVE] 2
    GState.ACTIVE (by decide) (by decide) (by decide)).1

/-- Claim C5: for every non-empty registry and every prompt, the content
list sent to the remote generation call is the registered handles in
insertion order, unfiltered, followed by the prompt as last element. -/
theorem C5_request_content (reg : Registry) (msgs : List Message) (prompt : String)
    (gen : List ContentPart → GenResult) (hne : reg ≠ []) :
    (handleChat reg msgs prompt gen).sent
      = some ((allHandles reg).map ContentPart.file ++ [ContentPart.text prompt]) := by
  simp only [handleChat, if_neg hne]
  cases hg : gen (gemini_content_list reg prompt) <;>
    simp [gemini_content_list]

/-- Witness for C5 on the spec's example: registry `{A, B}` and prompt
`"Summarize"` produce the request `[A, B, "Summarize"]`. -/
theorem C5_request_content_witness :
    (handleChat c5reg [] "Summarize" (fun _ => GenResult.ok ["notes"] "notes")).sent
      = some [ContentPart.file c5hA, ContentPart.file c5hB,
              ContentPart.text "Summarize"] := by
  rw [C5_request_content c5reg [] "Summarize" _ (by decide)]
  rfl

/-- Claim C6: a prompt submitted while the registry is empty yields the
"please upload first" warning and halts the handler; the remote
generation call is never invoked (nothing is sent). -/
theorem C6_empty_registry (msgs : List Message) (prompt : String)
    (gen : List ContentPart → GenResult) :
    (handleChat [] msgs prompt gen).sent = none ∧
    (handleChat [] msgs prompt gen).halted = true ∧
    uploadFirstWarning ∈ (handleChat [] msgs prompt gen).warnings := by
  refine ⟨rfl, rfl, ?_⟩
  simp [handleChat]

/-- Claim C7: a generation call whose response carries no content parts
shows the fixed fallback notice (not an error) and appends exactly one
assistant turn containing that fallback text to the conversation store. -/
theorem C7_empty_parts_fallback (reg : Registry) (msgs : List Message)
    (prompt : String) (gen : List ContentPart → GenResult) (t : String)
    (hne : reg ≠ [])
    (hgen : gen (gemini_content_list reg prompt) = GenResult.ok [] t) :
    (handleChat reg msgs prompt gen).shown = some fallbackText ∧
    (handleChat reg msgs prompt gen).errors = [] ∧
    (handleChat reg msgs prompt gen).messages
      = msgs ++ [⟨"user", [prompt]⟩, ⟨"assistant", [fallbackText]⟩] := by
  simp [handleChat, if_neg hne, hgen]

/-- Witness for C7: one registered handle, a generation oracle returning
a response with empty `parts`; the fallback is shown and stored. -/
theorem C7_empty_parts_fallback_witness :
    (handleChat [("A", c5hA)] [] "q" (fun _ => GenResult.ok [] "unused")).shown
        = some fallbackText ∧
    (handleChat [("A", c5hA)] [] "q" (fun _ => GenResult.ok [] "unused")).messages
        = [⟨"user", ["q"]⟩, ⟨"assistant", [fallbackText]⟩] := by
  have h := C7_empty_parts_fallback [("A", c5hA)] [] "q"
    (fun _ => GenResult.ok [] "unused") "unused" (by decide) rfl
  exact ⟨h.1, by rw [h.2.2]; rfl⟩

/-- Claim C8: an exception raised by the remote generation call is caught,
surfaced as a user-visible error message, recorded as an assistant turn
in the conversation store, and the handler does not halt the session. -/
theorem C8_generation_exception (reg : Registry) (msgs : List Message)
    (prompt : String) (gen : List ContentPart → GenResult) (e : String)
    (hne : reg ≠ [])
    (hgen : gen (gemini_content_list reg prompt) = GenResult.exn e) :
    ("An error occurred: " ++ e) ∈ (handleChat reg msgs prompt gen).errors ∧
    (handleChat reg msgs prompt gen).messages
      = msgs ++ [⟨"user", [prompt]⟩,
                 ⟨"assistant", ["Error generating response: " ++ e]⟩] ∧
    (handleChat reg msgs prompt gen).halted = false := by
  simp [handleChat, if_neg hne, hgen]

/-- Witness for C8: a generation oracle that raises `"boom"`; the error
is surfaced and stored and the handler keeps running. -/
theorem C8_generation_exception_witness :
    ("An error occurred: " ++ "boom")
        ∈ (handleChat [("A", c5hA)] [] "q" (fun _ => GenResult.exn "boom")).errors ∧
    (handleChat [("A", c5hA)] [] "q" (fun _ => GenResult.exn "boom")).halted
        = false := by
  have h := C8_generation_exception [("A", c5hA)] [] "q"
    (fun _ => GenResult.exn "boom") "boom" (by decide) rfl
  exact ⟨h.1, h.2.2⟩

theorem fateTerminal_isExnFate (ff : FileFate) (s : GState)
    (h : fateTerminal ff = some s) : isExnFate ff = false := by
  cases ff <;> simp [fateTerminal, isExnFate] at h ⊢

theorem processFile_spec (b : BatchState) (f : FileSpec) (b1 : BatchState) (e : Bool)
    (h : processFile b f = some (b1, e)) :
    b1.attempted = b.attempted ++ [f.name] ∧
    e = isExnFate f.fate ∧
    (∀ hh ∈ b1.processed, hh ∈ b.processed ∨ hh.state = GState.ACTIVE) ∧
    (∀ m ∈ b.errors, m ∈ b1.errors) ∧
    (fateTerminal f.fate = some GState.FAILED → uploadFailedMsg f.name ∈ b1.errors) ∧
    (b1.allSuccess = true →
      b.allSuccess = true ∧ fateTerminal f.fate = some GState.ACTIVE ∧
      ∃ hh, producedHandle f = some hh ∧ b1.processed = b.processed ++ [hh]) := by
  cases hf : f.fate with
  | stageCreateExn msg =>
    simp only [processFile, hf, Option.some.injEq, Prod.mk.injEq] at h
    obtain ⟨hb, he⟩ := h
    subst hb
    subst he
    refine ⟨rfl, rfl, fun hh hmem => Or.inl hmem, fun m hm => ?_, ?_, ?_⟩
    · exact List.mem_append_left _ hm
    · simp [fateTerminal]
    · intro hs; simp at hs
  | stageWriteExn path msg =>
    simp only [processFile, hf, Option.some.injEq, Prod.mk.injEq] at h
    obtain ⟨hb, he⟩ := h
    subst hb
    subst he
    refine ⟨rfl, rfl, fun hh hmem => Or.inl hmem, fun m hm => ?_, ?_, ?_⟩
    · exact List.mem_append_left _ hm
    · simp [fateTerminal]
    · intro hs; simp at hs
  | remoteExn path msg =>
    simp only [processFile, hf, Option.some.injEq, Prod.mk.injEq] at h
    obtain ⟨hb, he⟩ := h
    subst hb
    subst he
    refine ⟨rfl, rfl, fun hh hmem => Or.inl hmem, fun m hm => ?_, ?_, ?_⟩
    · exact List.mem_append_left _ hm
    · simp [fateTerminal]
    · intro hs; simp at hs
  | polled path rid sts =>
    simp only [processFile, hf] at h
    rcases hp : pollFirst sts with _ | ⟨st, k⟩ <;> rw [hp] at h <;> dsimp only at h
    · simp at h
    by_cases h1 : st = GState.FAILED
    · rw [if_pos h1] at h
      simp only [Option.some.injEq, Prod.mk.injEq] at h
      obtain ⟨hb, he⟩ := h
      subst hb
      subst he
      refine ⟨rfl, rfl, fun hh hmem => Or.inl hmem, fun m hm => ?_, fun _ => ?_, ?_⟩
      · exact List.mem_append_left _ hm
      · exact List.mem_append_right _ (List.mem_singleton.mpr rfl)
      · intro hs; simp at hs
    by_cases h2 : st = GState.ACTIVE
    · rw [if_neg h1, if_pos h2] at h
      simp only [Option.some.injEq, Prod.mk.injEq] at h
      obtain ⟨hb, he⟩ := h
      subst hb
      subst he
      subst h2
      refine ⟨rfl, rfl, fun hh hmem => ?_, fun m hm => hm, ?_, fun hs => ?_⟩
      · rcases List.mem_append.mp hmem with hl | hr
        · exact Or.inl hl
        · right
          rw [List.mem_singleton.mp hr]
      · intro hfail
        simp [fateTerminal, hp] at hfail
      · exact ⟨hs, by simp [fateTerminal, hp],
          ⟨rid, f.name, GState.ACTIVE⟩, by simp [producedHandle, hf], rfl⟩
    · rw [if_neg h1, if_neg h2] at h
      simp only [Option.some.injEq, Prod.mk.injEq] at h
      obtain ⟨hb, he⟩ := h
      subst hb
      subst he
      refine ⟨rfl, rfl, fun hh hmem => Or.inl hmem, fun m hm => ?_, fun hfail => ?_, ?_⟩
      · exact hm
      · exfalso
        apply h1
        simp [fateTerminal, hp] at hfail
        exact hfail
      · intro hs; simp at hs

theorem runBatch_spec :
    ∀ (fs : List FileSpec) (b b' : BatchState), runBatch b fs = some b' →
      (∀ hh ∈ b'.processed, hh ∈ b.processed ∨ hh.state = GState.ACTIVE) ∧
      (∀ m ∈ b.errors, m ∈ b'.errors) ∧
      (∀ n ∈ b'.attempted, n ∈ b.attempted ∨ n ∈ fs.map (fun g => g.name))
  | [], b, b', h => by
      simp only [runBatch, Option.some.injEq] at h
      subst h
      exact ⟨fun hh hmem => Or.inl hmem, fun m hm => hm, fun n hn => Or.inl hn⟩
  | f :: rest, b, b', h => by
      simp only [runBatch] at h
      rcases hpf : processFile b f with _ | ⟨b1, e⟩ <;> rw [hpf] at h
      · simp at h
      obtain ⟨hatt, hexn, hproc, herr, hfail, hsucc⟩ := processFile_spec b f b1 e hpf
      cases e with
      | true =>
        simp only [Option.some.injEq] at h
        subst h
        refine ⟨hproc, herr, fun n hn => ?_⟩
        rw [hatt] at hn
        rcases List.mem_append.mp hn with hl | hr
        · exact Or.inl hl
        · exact Or.inr (by simp [List.mem_singleton.mp hr])
      | false =>
        obtain ⟨ihproc, iherr, ihatt⟩ := runBatch_spec rest b1 b' h
        refine ⟨fun hh hmem => ?_, fun m hm => iherr m (herr m hm), fun n hn => ?_⟩
        · rcases ihproc hh hmem with hl | hr
          · exact hproc hh hl
          · exact Or.inr hr
        · rcases ihatt n hn with hl | hr
          · rw [hatt] at hl
            rcases List.mem_append.mp hl with hll | hlr
            · exact Or.inl hll
            · exact Or.inr (by simp [List.mem_singleton.mp hlr])
          · exact Or.inr (by simp [hr])

theorem runBatch_success :
    ∀ (fs : List FileSpec) (b b' : BatchState), runBatch b fs = some b' →
      b'.allSuccess = true →
      b.allSuccess = true ∧
      (∀ g ∈ fs, fateTerminal g.fate = some GState.ACTIVE) ∧
      ∃ hsl : List Handle, fs.map producedHandle = hsl.map some ∧
        b'.processed = b.processed ++ hsl
  | [], b, b', h, hs => by
      simp only [runBatch, Option.some.injEq] at h
      subst h
      exact ⟨hs, by simp, [], by simp, by simp⟩
  | f :: rest, b, b', h, hs => by
      simp only [runBatch] at h
      rcases hpf : processFile b f with _ | ⟨b1, e⟩ <;> rw [hpf] at h
      · simp at h
      obtain ⟨hatt, hexn, hproc, herr, hfail, hsucc⟩ := processFile_spec b f b1 e hpf
      cases e with
      | true =>
        simp only [Option.some.injEq] at h
        subst h
        obtain ⟨_, hterm, _⟩ := hsucc hs
        have := fateTerminal_isExnFate f.fate GState.ACTIVE hterm
        rw [← hexn] at this
        simp at this
      | false =>
        obtain ⟨ihb1, ihfates, hsl', ihmap, ihproc⟩ := runBatch_success rest b1 b' h hs
        obtain ⟨hb, hterm, hh, hph, hproc1⟩ := hsucc ihb1
        refine ⟨hb, ?_, hh :: hsl', ?_, ?_⟩
        · intro g hg
          rcases List.mem_cons.mp hg with hl | hr
          · rw [hl]; exact hterm
          · exact ihfates g hr
        · simp only [List.map_cons, hph, ihmap]
        · rw [ihproc, hproc1, List.append_assoc, List.singleton_append]

theorem runBatch_attempted_prefix :
    ∀ (fs : List FileSpec) (b b' : BatchState), runBatch b fs = some b' →
      ∃ k, b'.attempted = b.attempted ++ ((fs.take k).map (fun g => g.name))
  | [], b, b', h => by
      simp only [runBatch, Option.some.injEq] at h
      subst h
      exact ⟨0, by simp⟩
  | f :: rest, b, b', h => by
      simp only [runBatch] at h
      rcases hpf : processFile b f with _ | ⟨b1, e⟩ <;> rw [hpf] at h
      · simp at h
      obtain ⟨hatt, _, _, _, _, _⟩ := processFile_spec b f b1 e hpf
      cases e with
      | true =>
        simp only [Option.some.injEq] at h
        subst h
        exact ⟨1, by simp [hatt]⟩
      | false =>
        obtain ⟨k, ihk⟩ := runBatch_attempted_prefix rest b1 b' h
        refine ⟨k + 1, ?_⟩
        rw [ihk, hatt, List.take_succ_cons, List.map_cons, List.append_assoc,
          List.singleton_append]

theorem runBatch_attempted_noexn :
    ∀ (fs : List FileSpec) (b b' : BatchState), runBatch b fs = some b' →
      (∀ g ∈ fs, isExnFate g.fate = false) →
      b'.attempted = b.attempted ++ fs.map (fun g => g.name)
  | [], b, b', h, _ => by
      simp only [runBatch, Option.some.injEq] at h
      subst h
      simp
  | f :: rest, b, b', h, hclean => by
      simp only [runBatch] at h
      rcases hpf : processFile b f with _ | ⟨b1, e⟩ <;> rw [hpf] at h
      · simp at h
      obtain ⟨hatt, hexn, _, _, _, _⟩ := processFile_spec b f b1 e hpf
      have hef : e = false := by
        rw [hexn, hclean f (List.mem_cons_self f rest)]
      subst hef
      have ih := runBatch_attempted_noexn rest b1 b' h
        (fun g hg => hclean g (List.mem_cons_of_mem f hg))
      rw [ih, hatt, List.map_cons, List.append_assoc, List.singleton_append]

theorem runBatch_attempted_abort :
    ∀ (pre : List FileSpec) (f : FileSpec) (post : List FileSpec) (b b' : BatchState),
      runBatch b (pre ++ f :: post) = some b' →
      (∀ g ∈ pre, isExnFate g.fate = false) →
      isExnFate f.fate = true →
      b'.attempted = b.attempted ++ pre.map (fun g => g.name) ++ [f.name]
  | [], f, post, b, b', h, _, hf => by
      simp only [List.nil_append, runBatch] at h
      rcases hpf : processFile b f with _ | ⟨b1, e⟩ <;> rw [hpf] at h
      · simp at h
      obtain ⟨hatt, hexn, _, _, _, _⟩ := processFile_spec b f b1 e hpf
      have hef : e = true := by rw [hexn, hf]
      subst hef
      simp only [Option.some.injEq] at h
      subst h
      simp [hatt]
  | g :: pre', f, post, b, b', h, hpre, hf => by
      simp only [List.cons_append, runBatch] at h
      rcases hpf : processFile b g with _ | ⟨b1, e⟩ <;> rw [hpf] at h
      · simp at h
      obtain ⟨hatt, hexn, _, _, _, _⟩ := processFile_spec b g b1 e hpf
      have hef : e = false := by
        rw [hexn, hpre g (List.mem_cons_self g pre')]
      subst hef
      have ih := runBatch_attempted_abort pre' f post b1 b' h
        (fun g' hg' => hpre g' (List.mem_cons_of_mem g hg')) hf
      rw [ih, hatt, List.map_cons]
      simp [List.append_assoc]

theorem runBatch_failed_error :
    ∀ (pre : List FileSpec) (f : FileSpec) (post : List FileSpec) (b b' : BatchState),
      runBatch b (pre ++ f :: post) = some b' →
      (∀ g ∈ pre, isExnFate g.fate = false) →
      fateTerminal f.fate = some GState.FAILED →
      uploadFailedMsg f.name ∈ b'.errors
  | [], f, post, b, b', h, _, hf => by
      simp only [List.nil_append, runBatch] at h
      rcases hpf : processFile b f with _ | ⟨b1, e⟩ <;> rw [hpf] at h
      · simp at h
      obtain ⟨_, hexn, _, _, hfail, _⟩ := processFile_spec b f b1 e hpf
      have hef : e = false := by
        rw [hexn, fateTerminal_isExnFate f.fate GState.FAILED hf]
      subst hef
      obtain ⟨_, herr, _⟩ := runBatch_spec post b1 b' h
      exact herr _ (hfail hf)
  | g :: pre', f, post, b, b', h, hpre, hf => by
      simp only [List.cons_append, runBatch] at h
      rcases hpf : processFile b g with _ | ⟨b1, e⟩ <;> rw [hpf] at h
      · simp at h
      obtain ⟨_, hexn, _, _, _, _⟩ := processFile_spec b g b1 e hpf
      have hef : e = false := by
        rw [hexn, hpre g (List.mem_cons_self g pre')]
      subst hef
      exact runBatch_failed_error pre' f post b1 b' h
        (fun g' hg' => hpre g' (List.mem_cons_of_mem g hg')) hf

theorem mem_of_mem_cleanup :
    ∀ (ps disk : List String) (q : String), q ∈ cleanup disk ps → q ∈ disk
  | [], _, _, h => h
  | p :: rest, disk, q, h => by
      have hq := mem_of_mem_cleanup rest (removePath disk p) q h
      exact (List.mem_filter.mp hq).1

theorem not_mem_cleanup :
    ∀ (ps disk : List String) (p : String), p ∈ ps → p ∉ cleanup disk ps
  | [], _, _, hp => by simp at hp
  | q :: rest, disk, p, hp => by
      rcases List.mem_cons.mp hp with heq | hmem
      · subst heq
        intro hc
        have := mem_of_mem_cleanup rest (removePath disk p) p hc
        simp [removePath] at this
      · exact not_mem_cleanup rest (removePath disk q) p hmem

theorem upload_and_process_files_char (disk0 : List String) (files : List FileSpec)
    (r : UploadResult) (h : upload_and_process_files disk0 files = some r) :
    (files = [] ∧ r = ⟨[], [], true, [], [], [], disk0⟩) ∨
    (∃ b : BatchState, runBatch ⟨disk0, [], [], true, [], [], []⟩ files = some b ∧
      r = ⟨b.processed, b.tempPaths, b.allSuccess, b.errors, b.warnings, b.attempted,
           cleanup b.disk b.tempPaths⟩) := by
  by_cases hf : files = []
  · left
    rw [upload_and_process_files, if_pos hf] at h
    exact ⟨hf, (Option.some.inj h).symm⟩
  · right
    rw [upload_and_process_files, if_neg hf] at h
    rcases hb : runBatch ⟨disk0, [], [], true, [], [], []⟩ files with _ | b <;> rw [hb] at h
    · simp at h
    · exact ⟨b, rfl, (Option.some.inj h).symm⟩

theorem processNewUploads_char (reg : Registry) (sessionTemp disk0 : List String)
    (uploaded : List FileSpec) (out : StepResult)
    (hrun : processNewUploads reg sessionTemp disk0 uploaded = some out) :
    (out.batch = none ∧ out.registry = reg) ∨
    (∃ r, out.batch = some r ∧
      upload_and_process_files disk0 (files_to_process reg uploaded) = some r ∧
      ((r.allSuccess = true ∧
        out.registry = registerAll reg
          (((files_to_process reg uploaded).map (fun g => g.name)).zip r.processed)) ∨
       (r.allSuccess = false ∧ out.registry = reg))) := by
  by_cases hu : uploaded = []
  · left
    rw [processNewUploads, if_pos hu] at hrun
    have := (Option.some.inj hrun).symm
    subst this
    exact ⟨rfl, rfl⟩
  · rw [processNewUploads, if_neg hu] at hrun
    rcases hfs : files_to_process reg uploaded with _ | ⟨f, fs⟩ <;> rw [hfs] at hrun <;>
      dsimp only at hrun
    · left
      have := (Option.some.inj hrun).symm
      subst this
      exact ⟨rfl, rfl⟩
    · rcases hup : upload_and_process_files disk0 (f :: fs) with _ | r <;>
        rw [hup] at hrun <;> dsimp only at hrun
      · simp at hrun
      · right
        refine ⟨r, ?_⟩
        cases hsu : r.allSuccess with
        | true =>
          rw [if_pos hsu] at hrun
          have := (Option.some.inj hrun).symm
          subst this
          exact ⟨rfl, rfl, Or.inl ⟨rfl, rfl⟩⟩
        | false =>
          rw [if_neg (by simp [hsu])] at hrun
          have := (Option.some.inj hrun).symm
          subst this
          exact ⟨rfl, rfl, Or.inr ⟨rfl, rfl⟩⟩

theorem allHandles_assign (reg : Registry) (k : String) (v : Handle) :
    ∀ hh ∈ allHandles (assign reg k v), hh ∈ allHandles reg ∨ hh = v := by
  intro hh hmem
  by_cases hc : registryContains reg k = true
  · rw [assign, if_pos hc] at hmem
    simp only [allHandles, List.map_map, List.mem_map] at hmem
    obtain ⟨p, hp, hpe⟩ := hmem
    by_cases hpk : p.1 = k
    · right
      simp [Function.comp, hpk] at hpe
      exact hpe.symm
    · left
      simp only [Function.comp, if_neg hpk] at hpe
      exact List.mem_map.mpr ⟨p, hp, hpe⟩
  · rw [assign, if_neg hc] at hmem
    simp only [allHandles, List.map_append, List.mem_append] at hmem
    rcases hmem with hl | hr
    · exact Or.inl hl
    · simp at hr
      exact Or.inr hr

theorem allHandles_registerAll :
    ∀ (pairs : List (String × Handle)) (reg : Registry) (hh : Handle),
      hh ∈ allHandles (registerAll reg pairs) →
      hh ∈ allHandles reg ∨ ∃ kv ∈ pairs, kv.2 = hh
  | [], reg, hh, h => Or.inl h
  | (k, v) :: rest, reg, hh, h => by
      rcases allHandles_registerAll rest (assign reg k v) hh h with hl | ⟨kv, hkv, hkve⟩
      · rcases allHandles_assign reg k v hh hl with hll | hlr
        · exact Or.inl hll
        · exact Or.inr ⟨(k, v), List.mem_cons_self _ _, hlr.symm⟩
      · exact Or.inr ⟨kv, List.mem_cons_of_mem _ hkv, hkve⟩

theorem registryContains_iff_mem (reg : Registry) (n : String) :
    registryContains reg n = true ↔ n ∈ registryNames reg := by
  simp [registryContains, List.contains, List.elem_iff]

theorem registryContains_eq_false_iff (reg : Registry) (n : String) :
    registryContains reg n = false ↔ n ∉ registryNames reg := by
  rw [Bool.eq_false_iff, Ne, registryContains_iff_mem]

theorem find?_overwrite :
    ∀ (reg : Registry) (k n : String) (v : Handle), k ≠ n →
      (reg.map (fun p => if p.1 = k then (k, v) else p)).find? (fun p => p.1 == n)
        = reg.find? (fun p => p.1 == n)
  | [], _, _, _, _ => rfl
  | p :: rest, k, n, v, hk => by
      by_cases hpk : p.1 = k
      · have h1 : (((k, v) : String × Handle).1 == n) = false := by simp [hk]
        have h2 : (p.1 == n) = false := by simp [hpk, hk]
        simp only [List.map_cons, if_pos hpk, List.find?_cons, h1, h2]
        exact find?_overwrite rest k n v hk
      · rw [List.map_cons, if_neg hpk]
        simp only [List.find?_cons]
        cases hpn : (p.1 == n) with
        | true => rfl
        | false => exact find?_overwrite rest k n v hk

theorem registryLookup_assign_ne (reg : Registry) (k : String) (v : Handle)
    (n : String) (hk : k ≠ n) :
    registryLookup (assign reg k v) n = registryLookup reg n := by
  by_cases hc : registryContains reg k = true
  · rw [assign, if_pos hc, registryLookup, find?_overwrite reg k n v hk, registryLookup]
  · rw [assign, if_neg hc, registryLookup, List.find?_append]
    have h1 : List.find? (fun p => p.1 == n) [(k, v)] = none := by
      rw [List.find?_cons_of_neg _ (by simp [hk])]
      rfl
    rw [h1, Option.or_none, registryLookup]

theorem registryLookup_registerAll_ne :
    ∀ (pairs : List (String × Handle)) (reg : Registry) (n : String),
      (∀ kk ∈ registryNames pairs, kk ≠ n) →
      registryLookup (registerAll reg pairs) n = registryLookup reg n
  | [], _, _, _ => rfl
  | (k, v) :: rest, reg, n, h => by
      have hk : k ≠ n := h k (by simp [registryNames])
      rw [registerAll,
        registryLookup_registerAll_ne rest (assign reg k v) n
          (fun kk hkk => h kk (by
            rw [registryNames, List.map_cons]
            exact List.mem_cons_of_mem _ hkk)),
        registryLookup_assign_ne reg k v n hk]

theorem registerAll_fresh :
    ∀ (pairs : List (String × Handle)) (reg : Registry),
      (∀ kk ∈ registryNames pairs, registryContains reg kk = false) →
      (registryNames pairs).Nodup →
      registerAll reg pairs = reg ++ pairs
  | [], reg, _, _ => by simp [registerAll]
  | (k, v) :: rest, reg, hfresh, hnd => by
      have hk : registryContains reg k = false := hfresh k (by simp [registryNames])
      have hassign : assign reg k v = reg ++ [(k, v)] := by
        rw [assign, if_neg (by simp [hk])]
      rw [registerAll, hassign]
      rw [registryNames, List.map_cons] at hnd
      have hknotin := (List.nodup_cons.mp hnd).1
      have hnd' := (List.nodup_cons.mp hnd).2
      have hfresh' : ∀ kk ∈ registryNames rest,
          registryContains (reg ++ [(k, v)]) kk = false := by
        intro kk hkk
        have h1 : registryContains reg kk = false := hfresh kk (by
          rw [registryNames, List.map_cons]
          exact List.mem_cons_of_mem _ hkk)
        have h2 : k ≠ kk := fun he => hknotin (he ▸ hkk)
        rw [registryContains_eq_false_iff] at h1 ⊢
        intro hmem
        rw [registryNames, List.map_append] at hmem
        rcases List.mem_append.mp hmem with hl | hr
        · exact h1 hl
        · rw [List.map_cons, List.map_nil, List.mem_singleton] at hr
          exact h2 hr.symm
      rw [registerAll_fresh rest (reg ++ [(k, v)]) hfresh' hnd',
        List.append_assoc, List.singleton_append]

theorem registryLookup_append (reg pairs : Registry) (n : String)
    (h : registryContains reg n = false) :
    registryLookup (reg ++ pairs) n = registryLookup pairs n := by
  rw [registryLookup, List.find?_append]
  have h1 : List.find? (fun p => p.1 == n) reg = none := by
    rw [List.find?_eq_none]
    intro p hp hpn
    rw [registryContains_eq_false_iff] at h
    exact h (List.mem_map.mpr ⟨p, hp, by simpa using hpn⟩)
  rw [h1, Option.none_or, registryLookup]

theorem registryLookup_cons_ne (p : String × Handle) (rest : Registry) (n : String)
    (h : (p.1 == n) = false) :
    registryLookup (p :: rest) n = registryLookup rest n := by
  rw [registryLookup, List.find?_cons_of_neg _ (by simp [h]), registryLookup]

theorem registryLookup_nodup_get :
    ∀ (pairs : List (String × Handle)), (registryNames pairs).Nodup →
      ∀ (i : Nat) (hi : i < pairs.length),
        registryLookup pairs (pairs.get ⟨i, hi⟩).1 = some (pairs.get ⟨i, hi⟩).2
  | [], _, i, hi => by simp at hi
  | p :: rest, _, 0, hi => by
      simp [registryLookup, List.find?_cons_of_pos]
  | p :: rest, hnd, i + 1, hi => by
      rw [registryNames, List.map_cons] at hnd
      have hknotin := (List.nodup_cons.mp hnd).1
      have hnd' := (List.nodup_cons.mp hnd).2
      have hi' : i < rest.length := Nat.lt_of_succ_lt_succ hi
      have hmem : (rest.get ⟨i, hi'⟩).1 ∈ rest.map (fun p => p.1) :=
        List.mem_map.mpr ⟨_, List.get_mem _ _ _, rfl⟩
      have hne : (p.1 == (rest.get ⟨i, hi'⟩).1) = false := by
        simp only [beq_eq_false_iff_ne, ne_eq]
        intro he
        exact hknotin (he ▸ hmem)
      have ih := registryLookup_nodup_get rest hnd' i hi'
      have hg : ((p :: rest).get ⟨i + 1, hi⟩) = rest.get ⟨i, hi'⟩ := rfl
      rw [hg, registryLookup_cons_ne p rest _ hne]
      exact ih

/-- Claim C1: for every upload batch and every polled state sequence, a
handle enters the session registry only if its terminal polled state is
`ACTIVE` (so no registered handle is ever `FAILED`), and a file whose
polled sequence ends `FAILED` (and that the batch reaches, i.e. no
earlier file raised) has its failure reported with `st.error`. -/
theorem C1_registry_only_active (reg : Registry) (stp disk0 : List String)
    (uploaded : List FileSpec) (out : StepResult)
    (hreg : ∀ hh ∈ allHandles reg, hh.state = GState.ACTIVE)
    (hrun : processNewUploads reg stp disk0 uploaded = some out) :
    (∀ hh ∈ allHandles out.registry, hh.state = GState.ACTIVE) ∧
    (∀ hh ∈ allHandles out.registry, hh.state ≠ GState.FAILED) ∧
    (∀ r, out.batch = some r →
      ∀ pre f post, files_to_process reg uploaded = pre ++ f :: post →
        (∀ g ∈ pre, isExnFate g.fate = false) →
        fateTerminal f.fate = some GState.FAILED →
        uploadFailedMsg f.name ∈ r.errors) := by
  have hmain : ∀ hh ∈ allHandles out.registry, hh.state = GState.ACTIVE := by
    rcases processNewUploads_char reg stp disk0 uploaded out hrun with
      ⟨_, hregeq⟩ | ⟨r, hb, hup, hcase⟩
    · rw [hregeq]; exact hreg
    · have hproc_active : ∀ hh ∈ r.processed, hh.state = GState.ACTIVE := by
        rcases upload_and_process_files_char disk0 (files_to_process reg uploaded) r hup
          with ⟨_, hre⟩ | ⟨b, hrb, hre⟩
        · subst hre
          intro hh hmem
          simp at hmem
        · subst hre
          intro hh hmem
          dsimp only at hmem
          obtain ⟨hpr, _, _⟩ := runBatch_spec _ _ _ hrb
          rcases hpr hh hmem with hl | hr
          · simp at hl
          · exact hr
      rcases hcase with ⟨_, hregeq⟩ | ⟨_, hregeq⟩
      · rw [hregeq]
        intro hh hmem
        rcases allHandles_registerAll _ reg hh hmem with hl | ⟨kv, hkv, hkve⟩
        · exact hreg hh hl
        · rcases kv with ⟨kk, vv⟩
          have hp2 : vv ∈ r.processed := (List.of_mem_zip hkv).2
          rw [← hkve]
          exact hproc_active vv hp2
      · rw [hregeq]; exact hreg
  refine ⟨hmain, fun hh hmem => by rw [hmain hh hmem]; simp, ?_⟩
  intro r hb pre f post hsplit hpre hfail
  rcases processNewUploads_char reg stp disk0 uploaded out hrun with
    ⟨hbn, _⟩ | ⟨r', hb', hup, _⟩
  · rw [hbn] at hb; exact absurd hb (by simp)
  · rw [hb'] at hb
    have hrr := Option.some.inj hb
    rw [← hrr]
    rcases upload_and_process_files_char disk0 (files_to_process reg uploaded) r' hup
      with ⟨hfse, _⟩ | ⟨b, hrb, hre⟩
    · rw [hfse] at hsplit
      rcases pre with _ | ⟨g, pre'⟩ <;> simp at hsplit
    · subst hre
      dsimp only
      rw [hsplit] at hrb
      exact runBatch_failed_error pre f post _ b hrb hpre hfail

/-- Witness for C1: an empty starting registry and a batch whose first
file ends `FAILED`; afterwards every registered handle is `ACTIVE`
(vacuously: registration was withheld) and the failure was reported. -/
theorem C1_registry_only_active_witness :
    (∀ hh ∈ allHandles c1out.registry, hh.state = GState.ACTIVE) ∧
    (∀ r, c1out.batch = some r → uploadFailedMsg "a.png" ∈ r.errors) := by
  have h := C1_registry_only_active [] [] [] c1uploads c1out
    (by intro hh hmem; simp [allHandles] at hmem) (by decide)
  refine ⟨h.1, fun r hb => ?_⟩
  exact h.2.2 r hb []
    ⟨"a.png", FileFate.polled "/t/a" "files/ra" [GState.PROCESSING, GState.FAILED]⟩
    [⟨"b.png", FileFate.polled "/t/b" "files/rb" [GState.ACTIVE]⟩]
    (by decide) (by intro g hg; simp at hg) (by decide)

/-- Claim C2: a file whose filename is already registered is filtered out
before `upload_and_process_files` is called — it is never staged,
uploaded or polled again — and its registry entry is untouched (the first
successful upload for a filename wins). -/
theorem C2_idempotent_skip (reg : Registry) (stp disk0 : List String)
    (uploaded : List FileSpec) (f : FileSpec) (out : StepResult)
    (hmem : registryContains reg f.name = true)
    (hrun : processNewUploads reg stp disk0 uploaded = some out) :
    f ∉ files_to_process reg uploaded ∧
    (∀ r, out.batch = some r → f.name ∉ r.attempted) ∧
    registryLookup out.registry f.name = registryLookup reg f.name := by
  have hnames : ∀ n ∈ (files_to_process reg uploaded).map (fun g => g.name),
      registryContains reg n = false := by
    intro n hn
    rcases List.mem_map.mp hn with ⟨g, hg, hge⟩
    have h2 := (List.mem_filter.mp hg).2
    subst hge
    simpa using h2
  have hnotin : f ∉ files_to_process reg uploaded := by
    intro hf
    have h2 := (List.mem_filter.mp hf).2
    rw [hmem] at h2
    simp at h2
  refine ⟨hnotin, ?_, ?_⟩
  · intro r hb hatt
    rcases processNewUploads_char reg stp disk0 uploaded out hrun with
      ⟨hbn, _⟩ | ⟨r', hb', hup, _⟩
    · rw [hbn] at hb; exact absurd hb (by simp)
    · rw [hb'] at hb
      have hrr := Option.some.inj hb
      rw [← hrr] at hatt
      rcases upload_and_process_files_char disk0 (files_to_process reg uploaded) r' hup
        with ⟨_, hre⟩ | ⟨b, hrb, hre⟩
      · subst hre; simp at hatt
      · subst hre
        dsimp only at hatt
        obtain ⟨_, _, hatts⟩ := runBatch_spec _ _ _ hrb
        rcases hatts _ hatt with hl | hr2
        · simp at hl
        · have hc := hnames _ hr2
          rw [hmem] at hc
          simp at hc
  · rcases processNewUploads_char reg stp disk0 uploaded out hrun with
      ⟨_, hregeq⟩ | ⟨r, _, _, hcase⟩
    · rw [hregeq]
    · rcases hcase with ⟨_, hregeq⟩ | ⟨_, hregeq⟩
      · rw [hregeq]
        apply registryLookup_registerAll_ne
        intro kk hkk
        rcases List.mem_map.mp hkk with ⟨⟨k1, v1⟩, hpq, hpqe⟩
        have h1 : k1 ∈ (files_to_process reg uploaded).map (fun g => g.name) :=
          (List.of_mem_zip hpq).1
        intro heq
        have hc := hnames _ h1
        rw [show k1 = kk from hpqe, heq, hmem] at hc
        simp at hc
      · rw [hregeq]

/-- Witness for C2: re-submitting `a.png`, already registered, leaves the
registry entry intact and triggers no upload attempt. -/
theorem C2_idempotent_skip_witness :
    (⟨"a.png", FileFate.polled "/t/a2" "files/r1" [GState.ACTIVE]⟩ : FileSpec)
        ∉ files_to_process c2reg c2uploads ∧
    registryLookup c2out.registry "a.png" = registryLookup c2reg "a.png" := by
  have h := C2_idempotent_skip c2reg [] [] c2uploads
    ⟨"a.png", FileFate.polled "/t/a2" "files/r1" [GState.ACTIVE]⟩ c2out
    (by decide) (by decide)
  exact ⟨h.1, h.2.2⟩

theorem registryNames_zip (l1 : List String) (l2 : List Handle)
    (h : l1.length ≤ l2.length) : registryNames (l1.zip l2) = l1 := by
  rw [registryNames]
  exact List.map_fst_zip l1 l2 h

/-- Claim C3: registration after a batch is all-or-nothing.  If the batch
succeeds (every file `ACTIVE`, no exception) then, for distinct
filenames, each original filename is registered to the handle at the same
position of `processed_files` (position-aligned `zip`); if the batch is
unsuccessful, or some file does not end in terminal state `ACTIVE`
(Failed, unexpected state, or an exception), nothing from the batch is
registered. -/
theorem C3_all_or_nothing (reg : Registry) (stp disk0 : List String)
    (uploaded : List FileSpec) (out : StepResult) (r : UploadResult)
    (hrun : processNewUploads reg stp disk0 uploaded = some out)
    (hb : out.batch = some r) :
    (r.allSuccess = true →
      ((files_to_process reg uploaded).map (fun g => g.name)).Nodup →
      r.processed.length = (files_to_process reg uploaded).length ∧
      (∀ (i : Nat) (hi : i < (files_to_process reg uploaded).length),
        producedHandle ((files_to_process reg uploaded).get ⟨i, hi⟩)
          = r.processed[i]? ∧
        registryLookup out.registry
            (((files_to_process reg uploaded).get ⟨i, hi⟩).name)
          = r.processed[i]?)) ∧
    (r.allSuccess = false → out.registry = reg) ∧
    ((∃ f ∈ files_to_process reg uploaded, fateTerminal f.fate ≠ some GState.ACTIVE) →
      out.registry = reg) := by
  have hfreshnames : ∀ n ∈ (files_to_process reg uploaded).map (fun g => g.name),
      registryContains reg n = false := by
    intro n hn
    rcases List.mem_map.mp hn with ⟨g, hg, hge⟩
    have h2 := (List.mem_filter.mp hg).2
    subst hge
    simpa using h2
  rcases processNewUploads_char reg stp disk0 uploaded out hrun with
    ⟨hbn, _⟩ | ⟨r', hb', hup, hcase⟩
  · rw [hbn] at hb; exact absurd hb (by simp)
  · rw [hb'] at hb
    have hrr := Option.some.inj hb
    rw [hrr] at hup hcase
    rcases hcase with ⟨hst, hregeq⟩ | ⟨hsf, hregeq⟩
    · refine ⟨fun _ hnd => ?_, fun hsf => ?_, fun hex => ?_⟩
      · rcases upload_and_process_files_char disk0 (files_to_process reg uploaded) r hup
          with ⟨hfse, hre⟩ | ⟨b, hrb, hre⟩
        · subst hre
          rw [hfse]
          exact ⟨rfl, fun i hi => absurd hi (Nat.not_lt_zero i)⟩
        · have hbsucc : b.allSuccess = true := by rw [hre] at hst; exact hst
          obtain ⟨_, hfates, hsl, hmap, hproc⟩ := runBatch_success _ _ _ hrb hbsucc
          rw [show (⟨disk0, [], [], true, [], [], []⟩ : BatchState).processed
              = [] from rfl, List.nil_append] at hproc
          have hrp : r.processed = hsl := by rw [hre]; exact hproc
          have hlen : (files_to_process reg uploaded).length = hsl.length := by
            have hq := congrArg List.length hmap
            simpa using hq
          constructor
          · rw [hrp, hlen]
          · intro i hi
            have hih : i < hsl.length := hlen ▸ hi
            have hA : producedHandle ((files_to_process reg uploaded).get ⟨i, hi⟩)
                = some (hsl.get ⟨i, hih⟩) := by
              have hq := congrArg (fun l => l[i]?) hmap
              dsimp only at hq
              rw [List.getElem?_map, List.getElem?_map,
                List.getElem?_eq_getElem hi, List.getElem?_eq_getElem hih] at hq
              simp only [Option.map_some'] at hq
              have hqq := Option.some.inj hq
              simpa using hqq
            have hgetB : r.processed[i]? = some (hsl.get ⟨i, hih⟩) := by
              rw [hrp]
              simp [List.getElem?_eq_getElem hih]
            refine ⟨by rw [hgetB]; exact hA, ?_⟩
            have hnmlen : ((files_to_process reg uploaded).map (fun g => g.name)).length
                ≤ hsl.length := by
              rw [List.length_map, hlen]
            have hnamesnd : registryNames
                ((((files_to_process reg uploaded)).map (fun g => g.name)).zip hsl)
                = (files_to_process reg uploaded).map (fun g => g.name) :=
              registryNames_zip _ _ hnmlen
            have hfresh : ∀ kk ∈ registryNames
                ((((files_to_process reg uploaded)).map (fun g => g.name)).zip hsl),
                registryContains reg kk = false := by
              intro kk hkk
              rw [hnamesnd] at hkk
              exact hfreshnames kk hkk
            have hcontf : registryContains reg
                (((files_to_process reg uploaded).get ⟨i, hi⟩).name) = false :=
              hfreshnames _ (List.mem_map.mpr ⟨_, List.get_mem _ _ _, rfl⟩)
            rw [hgetB, hregeq, hrp,
              registerAll_fresh _ reg hfresh (by rw [hnamesnd]; exact hnd),
              registryLookup_append _ _ _ hcontf]
            have hplen : i < ((((files_to_process reg uploaded)).map
                (fun g => g.name)).zip hsl).length := by
              rw [List.length_zip, List.length_map, hlen, Nat.min_self]
              exact hih
            have hget := registryLookup_nodup_get _
              (by rw [hnamesnd]; exact hnd) i hplen
            have hpair : ((((files_to_process reg uploaded)).map
                (fun g => g.name)).zip hsl).get ⟨i, hplen⟩
                = ((((files_to_process reg uploaded)).get ⟨i, hi⟩).name,
                   hsl.get ⟨i, hih⟩) := by
              simp [List.get_eq_getElem, List.getElem_zip]
            rw [hpair] at hget
            exact hget
      · rw [hsf] at hst
        exact absurd hst (by simp)
      · obtain ⟨f, hf, hfne⟩ := hex
        rcases upload_and_process_files_char disk0 (files_to_process reg uploaded) r hup
          with ⟨hfse, _⟩ | ⟨b, hrb, hre⟩
        · rw [hfse] at hf
          simp at hf
        · have hbsucc : b.allSuccess = true := by rw [hre] at hst; exact hst
          obtain ⟨_, hfates, _⟩ := runBatch_success _ _ _ hrb hbsucc
          exact absurd (hfates f hf) hfne
    · refine ⟨fun hsu _ => ?_, fun _ => hregeq, fun _ => hregeq⟩
      rw [hsu] at hsf
      exact absurd hsf (by simp)

/-- Witness for C3 on a fully successful two-file batch: both filenames
are registered to the handle produced at the same position. -/
theorem C3_all_or_nothing_witness :
    registryLookup c3out.registry "a.png" = c3r.processed[0]? ∧
    registryLookup c3out.registry "b.png" = c3r.processed[1]? := by
  have h := C3_all_or_nothing [] [] [] c3uploads c3out c3r (by decide) (by decide)
  have h1 := (h.1 (by decide) (by decide)).2 0 (by decide)
  have h2 := (h.1 (by decide) (by decide)).2 1 (by decide)
  exact ⟨h1.2, h2.2⟩

/-- Counterexample to claim C4 as stated: when the write into the freshly
created temp file raises (e.g. disk full), the staging path created
during the attempt is never recorded in `temp_file_paths` and therefore
survives the `finally` cleanup: starting from an empty disk, after the
call `/tmp/stage0` is still on disk. -/
theorem C4_counterexample :
    upload_and_process_files [] [c4file] = some c4result ∧
    "/tmp/stage0" ∉ ([] : List String) ∧
    "/tmp/stage0" ∈ c4result.disk := by
  exact ⟨by decide, by decide, by decide⟩

/-- Claim C4 (amended): every temporary staging path recorded in
`temp_file_paths` is removed from disk before `upload_and_process_files`
returns, on every exit path (normal, per-file failure, or exception);
only a path orphaned by an exception between temp-file creation and the
recording of its path can remain. -/
theorem C4_recorded_paths_removed (disk0 : List String) (files : List FileSpec)
    (r : UploadResult) (h : upload_and_process_files disk0 files = some r) :
    ∀ p ∈ r.tempPaths, p ∉ r.disk := by
  rcases upload_and_process_files_char disk0 files r h with ⟨_, hre⟩ | ⟨b, _, hre⟩
  · subst hre
    intro p hp
    simp at hp
  · subst hre
    intro p hp
    dsimp only at hp ⊢
    exact not_mem_cleanup _ _ p hp

/-- Witness for the amended C4: a successful single-file upload whose
recorded staging path is gone from disk afterwards. -/
theorem C4_recorded_paths_removed_witness :
    "/t/w" ∉ c4wresult.disk :=
  C4_recorded_paths_removed [] [c4wfile] c4wresult (by decide) "/t/w" (by decide)

/-- Counterexample to claim C9 as stated: in a batch whose first file is
polled to `FAILED`, the second file is still staged, uploaded and polled
(it appears in the attempted list and its handle is produced), so a
per-file failure does not abort the rest of the batch. -/
theorem C9_counterexample :
    upload_and_process_files [] [c9fileA, c9fileB] = some c9result ∧
    fateTerminal c9fileA.fate = some GState.FAILED ∧
    "b.png" ∈ c9result.attempted ∧
    (⟨"files/r2", "b.png", GState.ACTIVE⟩ : Handle) ∈ c9result.processed := by
  exact ⟨by decide, by decide, by decide, by decide⟩

/-- Claim C9 (amended): files in a batch are processed strictly
sequentially in list order (the attempted files always form a prefix of
the batch); an exception raised while processing one file aborts the
batch — no later file is staged, uploaded or polled; but a file whose
polled state ends `FAILED` (or unexpected) does not abort the batch: when
no file raises, every file of the batch is processed. -/
theorem C9_sequential_abort_on_exception (disk0 : List String)
    (files : List FileSpec) (r : UploadResult)
    (hrun : upload_and_process_files disk0 files = some r) :
    (∃ k, r.attempted = (files.take k).map (fun g => g.name)) ∧
    (∀ pre f post, files = pre ++ f :: post →
      (∀ g ∈ pre, isExnFate g.fate = false) → isExnFate f.fate = true →
      r.attempted = pre.map (fun g => g.name) ++ [f.name]) ∧
    ((∀ g ∈ files, isExnFate g.fate = false) →
      r.attempted = files.map (fun g => g.name)) := by
  rcases upload_and_process_files_char disk0 files r hrun with ⟨hfe, hre⟩ | ⟨b, hrb, hre⟩
  · subst hre
    subst hfe
    refine ⟨⟨0, by simp⟩, ?_, by simp⟩
    intro pre f post hsplit
    rcases pre with _ | ⟨g, pre'⟩ <;> simp at hsplit
  · subst hre
    dsimp only
    refine ⟨?_, ?_, ?_⟩
    · obtain ⟨k, hk⟩ := runBatch_attempted_prefix files _ b hrb
      exact ⟨k, by simpa using hk⟩
    · intro pre f post hsplit hpre hf
      rw [hsplit] at hrb
      have hab := runBatch_attempted_abort pre f post _ b hrb hpre hf
      simpa using hab
    · intro hclean
      have hno := runBatch_attempted_noexn files _ b hrb hclean
      simpa using hno

/-- Witness for the amended C9: the first file raises during upload, and
only it was attempted — the second file was never staged. -/
theorem C9_sequential_abort_on_exception_witness :
    c9wresult.attempted = ["a.png"] := by
  have h := C9_sequential_abort_on_exception [] c9wfiles c9wresult (by decide)
  have h2 := h.2.1 [] ⟨"a.png", FileFate.remoteExn "/t/x" "network down"⟩
    [⟨"b.png", FileFate.polled "/t/y" "files/ry" [GState.ACTIVE]⟩]
    (by decide) (by intro g hg; simp at hg) (by decide)
  simpa using h2

end StudyBudy
